import Mathlib

/-!
Verification of the adaptive number-guessing game (src/game.py).

The Python source is shallowly embedded: Python floats become exact
rationals, Python ints become integers, dictionaries keyed by hint-style
strings become functions from strings, and the interactive loops become
explicit state-passing functions over lists or streams of inputs.
-/

namespace NumberGuess

/-! ## HotColdLearner (game.py lines 7-37) -/

/-- State of `HotColdLearner`: threshold multiplier `k`, fixed
`target_guesses`, `learning_rate`, and the history of
`(actual_guesses, predicted_guesses)` pairs. -/
structure HotColdLearner where
  k : ℚ
  target_guesses : ℤ
  learning_rate : ℚ
  history : List (ℤ × ℤ)
deriving Repr, DecidableEq

/-- The constructor `HotColdLearner(target_guesses=3)`:
`k = 0.3`, `learning_rate = 0.1`, empty history. -/
def initHotCold : HotColdLearner :=
  { k := 3/10, target_guesses := 3, learning_rate := 1/10, history := [] }

/-- `HotColdLearner.update_k` (lines 14-24): adjust `k` by the branch on
`actual_guesses <= target_guesses`, then clamp to `[0.1, 0.8]` via
`max(0.1, min(0.8, k))`. -/
def update_k (L : HotColdLearner) (actual predicted : ℤ) : HotColdLearner :=
  let k1 : ℚ :=
    if actual ≤ L.target_guesses then
      L.k + L.learning_rate * (1 - (predicted : ℚ) / (L.target_guesses : ℚ))
    else
      L.k - L.learning_rate * ((actual : ℚ) / (L.target_guesses : ℚ) - 1)
  { L with k := max (1/10) (min (8/10) k1) }

/-- `HotColdLearner.record_game` (lines 33-37): `predicted_guesses` is set
to `target_guesses`, the pair is appended to history, and `update_k` runs. -/
def record_game (L : HotColdLearner) (actual_guesses : ℤ) : HotColdLearner :=
  let predicted_guesses := L.target_guesses
  let L1 := { L with history := L.history ++ [(actual_guesses, predicted_guesses)] }
  update_k L1 actual_guesses predicted_guesses

/-- Fold a sequence of `record_game` calls over a learner. -/
def recordGames (L : HotColdLearner) (gs : List ℤ) : HotColdLearner :=
  gs.foldl record_game L

lemma record_game_k_bounds (L : HotColdLearner) (g : ℤ) :
    1/10 ≤ (record_game L g).k ∧ (record_game L g).k ≤ 8/10 := by
  constructor
  · exact le_max_left _ _
  · apply max_le
    · norm_num
    · exact min_le_left _ _

lemma recordGames_k_bounds (L : HotColdLearner) (gs : List ℤ)
    (hL : 1/10 ≤ L.k ∧ L.k ≤ 8/10) :
    1/10 ≤ (recordGames L gs).k ∧ (recordGames L gs).k ≤ 8/10 := by
  induction gs generalizing L with
  | nil => exact hL
  | cons g gs ih =>
      exact ih (record_game L g) (record_game_k_bounds L g)

/-- C1: for every sequence of `record_game` calls with `actual_guesses ≥ 1`,
starting from the constructor default `k = 0.3`, the field `k` lies in
`[0.1, 0.8]` after every call (i.e. after every prefix of the sequence). -/
theorem c1_k_always_clamped (gs : List ℤ) (_hg : ∀ g ∈ gs, 1 ≤ g) (n : ℕ) :
    1/10 ≤ (recordGames initHotCold (gs.take n)).k ∧
      (recordGames initHotCold (gs.take n)).k ≤ 8/10 := by
  apply recordGames_k_bounds
  constructor <;> norm_num [initHotCold]

/-- Witness for C1 at the concrete call sequence `[5, 1]`, fully taken. -/
theorem c1_k_always_clamped_witness :
    1/10 ≤ (recordGames initHotCold ([5, 1].take 2)).k ∧
      (recordGames initHotCold ([5, 1].take 2)).k ≤ 8/10 :=
  c1_k_always_clamped [5, 1] (by decide) 2

/-! ## HintBandit (game.py lines 39-65) -/

/-- State of `HintBandit`: the fixed ordered list of hint styles, the
exploration rate, and per-style `attempts` and `avg_attempts` dictionaries
(embedded as functions from style strings). -/
structure HintBandit where
  hint_styles : List String
  exploration_rate : ℚ
  attempts : String → ℤ
  avg_attempts : String → ℚ
  total_games : ℤ

/-- The bandit built by the `UserProfile` constructor (line 75):
styles `['hot_cold', 'higher_lower', 'range']`, exploration rate `0.1`,
both dictionaries zero-initialised. -/
def defaultStyles : List String := ["hot_cold", "higher_lower", "range"]

/-- The `HintBandit` constructor (lines 40-45) applied to `defaultStyles`. -/
def initBandit : HintBandit :=
  { hint_styles := defaultStyles
    exploration_rate := 1/10
    attempts := fun _ => 0
    avg_attempts := fun _ => 0
    total_games := 0 }

/-- Left fold of Python `min(iterable, key=f)` over the tail: the running
best is replaced only when a strictly smaller key appears, so the first
minimal element wins. -/
def minByAux (f : String → ℚ) (best : String) : List String → String
  | [] => best
  | y :: ys => minByAux f (if f y < f best then y else best) ys

/-- Python `min(l, key=f)`: `none` on the empty list (where Python raises). -/
def minBy (f : String → ℚ) : List String → Option String
  | [] => none
  | x :: xs => some (minByAux f x xs)

/-- `HintBandit.select_hint_style` (lines 47-54). The randomness is made
explicit: `r` stands for the `random.random()` draw and `c` for the index
`random.choice` would pick in the explore branch. -/
def select_hint_style (b : HintBandit) (r : ℚ) (c : ℕ) : Option String :=
  if r < b.exploration_rate then b.hint_styles.get? (c % b.hint_styles.length)
  else minBy b.avg_attempts b.hint_styles

/-- `HintBandit.update_stats` (lines 56-65): increment `attempts[style]`
and `total_games`; if `attempts[style]` is now 1 set the average to the
raw value, else blend `0.8 * old + 0.2 * new`. -/
def update_stats (b : HintBandit) (hint_style : String) (attempts : ℤ) : HintBandit :=
  let att : String → ℤ := fun s => if s = hint_style then b.attempts s + 1 else b.attempts s
  let avg : String → ℚ :=
    if att hint_style = 1 then
      fun s => if s = hint_style then (attempts : ℚ) else b.avg_attempts s
    else
      fun s => if s = hint_style then 8/10 * b.avg_attempts s + 2/10 * (attempts : ℚ)
               else b.avg_attempts s
  { b with attempts := att, avg_attempts := avg, total_games := b.total_games + 1 }

/-- Fold a sequence of `update_stats` calls over a bandit. -/
def updateStatsSeq (b : HintBandit) (calls : List (String × ℤ)) : HintBandit :=
  calls.foldl (fun b c => update_stats b c.1 c.2) b

lemma updateStatsSeq_attempts (b : HintBandit) (calls : List (String × ℤ)) (s : String) :
    (updateStatsSeq b calls).attempts s =
      b.attempts s + (calls.filter (fun c => c.1 = s)).length := by
  induction calls generalizing b with
  | nil => simp [updateStatsSeq]
  | cons c cs ih =>
      have h1 : updateStatsSeq b (c :: cs) = updateStatsSeq (update_stats b c.1 c.2) cs := rfl
      rw [h1, ih]
      by_cases hc : c.1 = s
      · subst hc
        simp [update_stats, List.filter]
        ring
      · have hc2 : ¬ s = c.1 := fun h => hc h.symm
        simp [update_stats, hc2, List.filter, hc]

/-- C3: starting from the constructor state, after the first
`update_stats(s, a)` call for a style `s` (no earlier call in the sequence
names `s`), `avg_attempts[s]` equals `a` exactly; and whenever at least one
earlier call named `s`, the new average is `0.8 * old + 0.2 * a`. -/
theorem c3_first_exact_then_ema (calls : List (String × ℤ)) (s : String) (a : ℤ) :
    ((∀ c ∈ calls, c.1 ≠ s) →
      (update_stats (updateStatsSeq initBandit calls) s a).avg_attempts s = (a : ℚ)) ∧
    ((∃ c ∈ calls, c.1 = s) →
      (update_stats (updateStatsSeq initBandit calls) s a).avg_attempts s =
        8/10 * (updateStatsSeq initBandit calls).avg_attempts s + 2/10 * (a : ℚ)) := by
  have hatt : (updateStatsSeq initBandit calls).attempts s =
      ((calls.filter (fun c => c.1 = s)).length : ℤ) := by
    rw [updateStatsSeq_attempts]
    simp [initBandit]
  constructor
  · intro hnone
    have hfilter : calls.filter (fun c => c.1 = s) = [] := by
      apply List.filter_eq_nil_iff.mpr
      intro c hc
      simpa using hnone c hc
    have h0 : (updateStatsSeq initBandit calls).attempts s = 0 := by
      rw [hatt, hfilter]; rfl
    simp [update_stats, h0]
  · rintro ⟨c, hc, hcs⟩
    have hmem : c ∈ calls.filter (fun c => c.1 = s) := by
      apply List.mem_filter.mpr
      exact ⟨hc, by simpa using hcs⟩
    have hpos : 0 < (calls.filter (fun c => c.1 = s)).length :=
      List.length_pos.mpr (List.ne_nil_of_mem hmem)
    have hne : (updateStatsSeq initBandit calls).attempts s ≠ 0 := by
      rw [hatt]
      omega
    simp [update_stats, hne]

/-- Witness for C3: a first call for `hot_cold` after a `higher_lower`
game records the raw value 7; a second `hot_cold` call blends with the
stored average 5. -/
theorem c3_first_exact_then_ema_witness :
    (update_stats (updateStatsSeq initBandit [("higher_lower", 5)]) "hot_cold" 7).avg_attempts
        "hot_cold" = (7 : ℚ) ∧
    (update_stats (updateStatsSeq initBandit [("hot_cold", 5)]) "hot_cold" 7).avg_attempts
        "hot_cold" =
      8/10 * (updateStatsSeq initBandit [("hot_cold", 5)]).avg_attempts "hot_cold" +
        2/10 * (7 : ℚ) :=
  ⟨(c3_first_exact_then_ema [("higher_lower", 5)] "hot_cold" 7).1 (by decide),
   (c3_first_exact_then_ema [("hot_cold", 5)] "hot_cold" 7).2 ⟨("hot_cold", 5), by decide, rfl⟩⟩

/-- Worded from the spec, for comparison with `select_hint_style`: the
style with the lowest current `avg_attempts`, ties broken by the first
occurrence in the iteration order of `hint_styles`. -/
def firstMinSpec (f : String → ℚ) (l : List String) : Option String :=
  l.find? (fun x => l.all (fun y => decide (f x ≤ f y)))

lemma minByAux_min (f : String → ℚ) :
    ∀ (l : List String) (b : String),
      f (minByAux f b l) ≤ f b ∧ ∀ t ∈ l, f (minByAux f b l) ≤ f t := by
  intro l
  induction l with
  | nil => intro b; exact ⟨le_refl _, by simp⟩
  | cons y ys ih =>
      intro b
      by_cases hy : f y < f b
      · have h := ih y
        rw [minByAux, if_pos hy]
        refine ⟨le_trans h.1 (le_of_lt hy), ?_⟩
        intro t ht
        rcases List.mem_cons.mp ht with h1 | h1
        · subst h1; exact h.1
        · exact h.2 t h1
      · have h := ih b
        rw [minByAux, if_neg hy]
        refine ⟨h.1, ?_⟩
        intro t ht
        rcases List.mem_cons.mp ht with h1 | h1
        · subst h1; exact le_trans h.1 (le_of_not_lt hy)
        · exact h.2 t h1

lemma minByAux_first (f : String → ℚ) :
    ∀ (l : List String) (b : String),
      minByAux f b l = b ∨
        ∃ p q, l = p ++ minByAux f b l :: q ∧ f (minByAux f b l) < f b ∧
          ∀ t ∈ p, f (minByAux f b l) < f t := by
  intro l
  induction l with
  | nil => intro b; left; rfl
  | cons y ys ih =>
      intro b
      by_cases hy : f y < f b
      · rw [minByAux, if_pos hy]
        rcases ih y with h1 | ⟨p, q, hys, hlt, hall⟩
        · right
          exact ⟨[], ys, by simp [h1], by rw [h1]; exact hy, by simp⟩
        · right
          refine ⟨y :: p, q, ?_, lt_trans hlt hy, ?_⟩
          · rw [List.cons_append]
            exact congrArg (fun l => y :: l) hys
          · intro t ht
            rcases List.mem_cons.mp ht with h2 | h2
            · subst h2; exact hlt
            · exact hall t h2
      · rw [minByAux, if_neg hy]
        rcases ih b with h1 | ⟨p, q, hys, hlt, hall⟩
        · left; exact h1
        · right
          refine ⟨y :: p, q, ?_, hlt, ?_⟩
          · rw [List.cons_append]
            exact congrArg (fun l => y :: l) hys
          · intro t ht
            rcases List.mem_cons.mp ht with h2 | h2
            · subst h2; exact lt_of_lt_of_le hlt (le_of_not_lt hy)
            · exact hall t h2

lemma find?_append_cons (P : String → Bool) :
    ∀ (p : List String) (m : String) (q : List String),
      (∀ t ∈ p, P t = false) → P m = true →
      (p ++ m :: q).find? P = some m := by
  intro p
  induction p with
  | nil => intro m q _ hm; simp [List.find?_cons, hm]
  | cons t ts ih =>
      intro m q hp hm
      have ht : P t = false := hp t (by simp)
      have := ih m q (fun u hu => hp u (by simp [hu])) hm
      simp [List.find?_cons, ht, this]

lemma minBy_eq_firstMinSpec (f : String → ℚ) (l : List String) :
    minBy f l = firstMinSpec f l := by
  cases l with
  | nil => rfl
  | cons x xs =>
      have hmin := minByAux_min f xs x
      have hmemP : ∀ m : String, (∀ y ∈ x :: xs, f m ≤ f y) →
          ((x :: xs).all (fun y => decide (f m ≤ f y)) = true) := by
        intro m hm
        rw [List.all_eq_true]
        intro y hy
        exact decide_eq_true (hm y hy)
      rcases minByAux_first f xs x with h1 | ⟨p, q, hys, hlt, hall⟩
      · -- the accumulator `x` itself is the first minimum
        show some (minByAux f x xs) = firstMinSpec f (x :: xs)
        rw [h1]
        unfold firstMinSpec
        have hPx : ((x :: xs).all (fun y => decide (f x ≤ f y)) = true) := by
          apply hmemP
          intro y hy
          rcases List.mem_cons.mp hy with h2 | h2
          · subst h2; exact le_refl _
          · have := hmin.2 y h2; rwa [h1] at this
        exact (find?_append_cons (fun t => (x :: xs).all fun y => decide (f t ≤ f y))
          [] x xs (by simp) hPx).symm
      · -- the minimum sits strictly inside `xs`, after prefix `x :: p`
        show some (minByAux f x xs) = firstMinSpec f (x :: xs)
        unfold firstMinSpec
        have hdecomp : x :: xs = (x :: p) ++ minByAux f x xs :: q := by
          rw [List.cons_append]
          exact congrArg (fun l => x :: l) hys
        have hle : ∀ y ∈ x :: xs, f (minByAux f x xs) ≤ f y := by
          intro y hy
          rcases List.mem_cons.mp hy with h2 | h2
          · subst h2; exact le_of_lt hlt
          · exact hmin.2 y h2
        rw [hdecomp]
        refine (find?_append_cons _ (x :: p) (minByAux f x xs) q ?_ ?_).symm
        · intro t ht
          have htm : f (minByAux f x xs) < f t := by
            rcases List.mem_cons.mp ht with h2 | h2
            · subst h2; exact hlt
            · exact hall t h2
          have hmem : minByAux f x xs ∈ (x :: p) ++ minByAux f x xs :: q := by simp
          rw [List.all_eq_false]
          exact ⟨minByAux f x xs, hmem, by simpa using not_le_of_lt htm⟩
        · rw [← hdecomp]
          exact hmemP _ hle

/-- C4: with `exploration_rate = 0` the selection is deterministic,
independent of the random draws, and returns the first style attaining the
minimal `avg_attempts` in the iteration order of `hint_styles`. -/
theorem c4_greedy_selects_first_min (b : HintBandit) (r : ℚ) (c c2 : ℕ)
    (h0 : b.exploration_rate = 0) (hr : 0 ≤ r) :
    select_hint_style b r c = firstMinSpec b.avg_attempts b.hint_styles ∧
      select_hint_style b r c = select_hint_style b r c2 := by
  have hlt : ¬ r < b.exploration_rate := by rw [h0]; exact not_lt.mpr hr
  unfold select_hint_style
  rw [if_neg hlt, if_neg hlt]
  exact ⟨minBy_eq_firstMinSpec b.avg_attempts b.hint_styles, rfl⟩

/-- A concrete zero-exploration bandit over the default styles, with
`higher_lower` strictly best. -/
def greedyBandit : HintBandit :=
  { hint_styles := defaultStyles
    exploration_rate := 0
    attempts := fun _ => 0
    avg_attempts := fun s => if s = "higher_lower" then 2 else 5
    total_games := 0 }

/-- Witness for C4: the zero-exploration bandit is selected from
deterministically, matching the spec-worded first minimum. -/
theorem c4_greedy_selects_first_min_witness :
    select_hint_style greedyBandit (1/2) 0 =
        firstMinSpec greedyBandit.avg_attempts greedyBandit.hint_styles ∧
      select_hint_style greedyBandit (1/2) 0 = select_hint_style greedyBandit (1/2) 1 :=
  c4_greedy_selects_first_min greedyBandit (1/2) 0 1 rfl (by norm_num)

/-! ## Range narrowing in the two game modes (game.py lines 156-248) -/

/-- Python 3 `round` on an exactly-representable value: round half to even. -/
def pyRound (q : ℚ) : ℤ :=
  let f := Int.floor q
  let r := q - (f : ℚ)
  if r < 1/2 then f
  else if 1/2 < r then f + 1
  else if f % 2 = 0 then f else f + 1

/-- Python `int` truncation toward zero. -/
def pyInt (q : ℚ) : ℤ := q.num / (q.den : ℤ)

/-- The guess emitted by `play_computer_guesses` (lines 213-222): bias the
position by `alpha` when the range has more than one point, round, then
clamp with `max(cur_lo, min(cur_hi, guess))`. -/
def computeGuess (alpha : ℚ) (lo hi : ℤ) : ℤ :=
  max lo (min hi
    (if lo < hi then pyRound ((lo : ℚ) + ((hi : ℚ) - (lo : ℚ)) * alpha) else lo))

/-- Range narrowing after a wrong guess in the human-guesses mode
(lines 196-201): raise `cur_lo` past a low guess, drop `cur_hi` below a
high one; an exact match leaves the range unchanged (the loop breaks). -/
def narrowU (secret g : ℤ) (s : ℤ × ℤ) : ℤ × ℤ :=
  if g < secret then (max s.1 (g + 1), s.2)
  else if secret < g then (s.1, min s.2 (g - 1))
  else s

/-- Range state after the first `n` guesses of the human-guesses mode. -/
def stateAtU (secret : ℤ) (gs : ℕ → ℤ) (s0 : ℤ × ℤ) : ℕ → ℤ × ℤ
  | 0 => s0
  | n + 1 => narrowU secret (gs n) (stateAtU secret gs s0 n)

/-- Fuelled interpreter of the guessing loop of `play_user_guesses`:
returns the index of the winning guess, `none` if the fuel runs out. -/
def playGo (secret : ℤ) (gs : ℕ → ℤ) : ℕ → ℤ × ℤ → ℕ → Option ℕ
  | 0, _, _ => none
  | fuel + 1, s, i =>
      if gs i = secret then some i
      else playGo secret gs fuel (narrowU secret (gs i) s) (i + 1)

/-- One user response in the system-guesses mode. -/
inductive Resp where
  | up
  | down
  | correct
  | other
deriving Repr, DecidableEq

/-- Range narrowing in the system-guesses mode (lines 236-241): the guess
is the alpha-biased clamped guess; `h` raises `cur_lo`, `l` drops
`cur_hi`, and `c` or an invalid response leaves the range unchanged. -/
def narrowC (alpha : ℚ) (s : ℤ × ℤ) (r : Resp) : ℤ × ℤ :=
  let g := computeGuess alpha s.1 s.2
  match r with
  | .up => (max s.1 (g + 1), s.2)
  | .down => (s.1, min s.2 (g - 1))
  | _ => s

/-- Range state after the first `n` responses of the system-guesses mode. -/
def stateAtC (alpha : ℚ) (rs : ℕ → Resp) (s0 : ℤ × ℤ) : ℕ → ℤ × ℤ
  | 0 => s0
  | n + 1 => narrowC alpha (stateAtC alpha rs s0 n) (rs n)

lemma narrowU_keeps_secret (secret g : ℤ) (s : ℤ × ℤ)
    (h1 : s.1 ≤ secret) (h2 : secret ≤ s.2) :
    (narrowU secret g s).1 ≤ secret ∧ secret ≤ (narrowU secret g s).2 := by
  unfold narrowU
  split_ifs with hl hr
  · exact ⟨max_le h1 (by omega), h2⟩
  · exact ⟨h1, le_min h2 (by omega)⟩
  · exact ⟨h1, h2⟩

lemma stateAtU_keeps_secret (secret lo hi : ℤ) (gs : ℕ → ℤ)
    (hlo : lo ≤ secret) (hhi : secret ≤ hi) (n : ℕ) :
    (stateAtU secret gs (lo, hi) n).1 ≤ secret ∧
      secret ≤ (stateAtU secret gs (lo, hi) n).2 := by
  induction n with
  | zero => exact ⟨hlo, hhi⟩
  | succ n ih => exact narrowU_keeps_secret secret (gs n) _ ih.1 ih.2

lemma narrowU_shrinks (secret g : ℤ) (s : ℤ × ℤ)
    (hne : g ≠ secret) (hg1 : s.1 ≤ g) (hg2 : g ≤ s.2) :
    (narrowU secret g s).2 - (narrowU secret g s).1 < s.2 - s.1 := by
  unfold narrowU
  split_ifs <;> simp <;> omega

lemma playGo_some_hits (secret : ℤ) (gs : ℕ → ℤ) :
    ∀ (fuel : ℕ) (s : ℤ × ℤ) (i j : ℕ),
      playGo secret gs fuel s i = some j → gs j = secret := by
  intro fuel
  induction fuel with
  | zero => intro s i j h; exact absurd h (by simp [playGo])
  | succ fuel ih =>
      intro s i j h
      rw [playGo] at h
      by_cases hg : gs i = secret
      · rw [if_pos hg] at h
        cases h
        exact hg
      · rw [if_neg hg] at h
        exact ih _ _ _ h

lemma playGo_terminates (secret lo hi : ℤ) (gs : ℕ → ℤ)
    (hlo : lo ≤ secret) (hhi : secret ≤ hi)
    (hin : ∀ n, (∀ m < n, gs m ≠ secret) →
      (stateAtU secret gs (lo, hi) n).1 ≤ gs n ∧
        gs n ≤ (stateAtU secret gs (lo, hi) n).2) :
    ∀ (fuel i : ℕ), (∀ m < i, gs m ≠ secret) →
      ((stateAtU secret gs (lo, hi) i).2 - (stateAtU secret gs (lo, hi) i).1).toNat < fuel →
      ∃ j, playGo secret gs fuel (stateAtU secret gs (lo, hi) i) i = some j ∧
        gs j = secret := by
  intro fuel
  induction fuel with
  | zero => intro i _ hw; omega
  | succ fuel ih =>
      intro i hpre hw
      by_cases hg : gs i = secret
      · exact ⟨i, by rw [playGo, if_pos hg], hg⟩
      · have hrange := hin i hpre
        have hsec := stateAtU_keeps_secret secret lo hi gs hlo hhi i
        have hsec1 := stateAtU_keeps_secret secret lo hi gs hlo hhi (i + 1)
        have hshrink := narrowU_shrinks secret (gs i)
          (stateAtU secret gs (lo, hi) i) hg hrange.1 hrange.2
        have hstep : stateAtU secret gs (lo, hi) (i + 1) =
            narrowU secret (gs i) (stateAtU secret gs (lo, hi) i) := rfl
        have hpre1 : ∀ m < i + 1, gs m ≠ secret := by
          intro m hm
          rcases Nat.lt_succ_iff_lt_or_eq.mp hm with h | h
          · exact hpre m h
          · subst h; exact hg
        have hw1 : ((stateAtU secret gs (lo, hi) (i + 1)).2 -
            (stateAtU secret gs (lo, hi) (i + 1)).1).toNat < fuel := by
          rw [hstep]
          rw [hstep] at hsec1
          omega
        obtain ⟨j, hj, hjs⟩ := ih (i + 1) hpre1 hw1
        refine ⟨j, ?_, hjs⟩
        rw [playGo, if_neg hg, ← hstep]
        exact hj

/-- C5: in the human-guesses mode, starting from a range containing the
secret and fed any stream of guesses that are in range whenever the game
is still running: the secret stays inside the range after every narrowing
step, every wrong in-range guess strictly shrinks the range, the loop wins
within `hi - lo + 1` guesses, and it reports a win only on an exact match. -/
theorem c5_user_mode_terminates (secret lo hi : ℤ) (gs : ℕ → ℤ)
    (hlo : lo ≤ secret) (hhi : secret ≤ hi)
    (hin : ∀ n, (∀ m < n, gs m ≠ secret) →
      (stateAtU secret gs (lo, hi) n).1 ≤ gs n ∧
        gs n ≤ (stateAtU secret gs (lo, hi) n).2) :
    (∀ n, (stateAtU secret gs (lo, hi) n).1 ≤ secret ∧
        secret ≤ (stateAtU secret gs (lo, hi) n).2) ∧
    (∀ n, gs n ≠ secret →
        (stateAtU secret gs (lo, hi) n).1 ≤ gs n →
        gs n ≤ (stateAtU secret gs (lo, hi) n).2 →
        (stateAtU secret gs (lo, hi) (n + 1)).2 - (stateAtU secret gs (lo, hi) (n + 1)).1 <
          (stateAtU secret gs (lo, hi) n).2 - (stateAtU secret gs (lo, hi) n).1) ∧
    (∃ j, playGo secret gs ((hi - lo).toNat + 1) (lo, hi) 0 = some j ∧ gs j = secret) ∧
    (∀ fuel s i j, playGo secret gs fuel s i = some j → gs j = secret) := by
  refine ⟨stateAtU_keeps_secret secret lo hi gs hlo hhi, ?_, ?_, playGo_some_hits secret gs⟩
  · intro n hne hg1 hg2
    exact narrowU_shrinks secret (gs n) _ hne hg1 hg2
  · have h := playGo_terminates secret lo hi gs hlo hhi hin ((hi - lo).toNat + 1) 0
      (by omega) (by simp [stateAtU])
    simpa [stateAtU] using h

/-- Witness for C5: secret 2 in `[1, 3]`, with the constant guess stream 2
(first guess wins). -/
theorem c5_user_mode_terminates_witness :
    (∀ n, (stateAtU 2 (fun _ => 2) (1, 3) n).1 ≤ 2 ∧
        2 ≤ (stateAtU 2 (fun _ => 2) (1, 3) n).2) ∧
    (∀ n, (fun _ : ℕ => (2 : ℤ)) n ≠ 2 →
        (stateAtU 2 (fun _ => 2) (1, 3) n).1 ≤ (fun _ : ℕ => (2 : ℤ)) n →
        (fun _ : ℕ => (2 : ℤ)) n ≤ (stateAtU 2 (fun _ => 2) (1, 3) n).2 →
        (stateAtU 2 (fun _ => 2) (1, 3) (n + 1)).2 -
            (stateAtU 2 (fun _ => 2) (1, 3) (n + 1)).1 <
          (stateAtU 2 (fun _ => 2) (1, 3) n).2 - (stateAtU 2 (fun _ => 2) (1, 3) n).1) ∧
    (∃ j, playGo 2 (fun _ => 2) (((3 : ℤ) - 1).toNat + 1) (1, 3) 0 = some j ∧
      (fun _ : ℕ => (2 : ℤ)) j = 2) ∧
    (∀ fuel s i j, playGo 2 (fun _ => 2) fuel s i = some j → (fun _ : ℕ => (2 : ℤ)) j = 2) := by
  have hin : ∀ n, (∀ m < n, (fun _ : ℕ => (2 : ℤ)) m ≠ 2) →
      (stateAtU 2 (fun _ => 2) (1, 3) n).1 ≤ (fun _ : ℕ => (2 : ℤ)) n ∧
        (fun _ : ℕ => (2 : ℤ)) n ≤ (stateAtU 2 (fun _ => 2) (1, 3) n).2 := by
    intro n hpre
    cases n with
    | zero => simp [stateAtU]
    | succ m => exact absurd rfl (hpre 0 (Nat.succ_pos m))
  exact c5_user_mode_terminates 2 1 3 (fun _ => 2) (by omega) (by omega) hin

lemma narrowU_mono (secret g : ℤ) (s : ℤ × ℤ) :
    s.1 ≤ (narrowU secret g s).1 ∧ (narrowU secret g s).2 ≤ s.2 := by
  unfold narrowU
  split_ifs <;> exact ⟨by simp, by simp⟩

lemma narrowC_mono (alpha : ℚ) (s : ℤ × ℤ) (r : Resp) :
    s.1 ≤ (narrowC alpha s r).1 ∧ (narrowC alpha s r).2 ≤ s.2 := by
  unfold narrowC
  cases r <;> constructor <;> simp

/-- C6: in both game modes the range narrowing is monotonic across any
sequence of guesses and responses: `cur_lo` never decreases and `cur_hi`
never increases. -/
theorem c6_narrowing_monotonic (secret lo hi : ℤ) (gs : ℕ → ℤ)
    (alpha : ℚ) (rs : ℕ → Resp) (m n : ℕ) (hmn : m ≤ n) :
    ((stateAtU secret gs (lo, hi) m).1 ≤ (stateAtU secret gs (lo, hi) n).1 ∧
      (stateAtU secret gs (lo, hi) n).2 ≤ (stateAtU secret gs (lo, hi) m).2) ∧
    ((stateAtC alpha rs (lo, hi) m).1 ≤ (stateAtC alpha rs (lo, hi) n).1 ∧
      (stateAtC alpha rs (lo, hi) n).2 ≤ (stateAtC alpha rs (lo, hi) m).2) := by
  induction n with
  | zero =>
      have hm : m = 0 := Nat.le_zero.mp hmn
      subst hm
      exact ⟨⟨le_refl _, le_refl _⟩, ⟨le_refl _, le_refl _⟩⟩
  | succ n ih =>
      rcases Nat.le_succ_iff_eq_or_le.mp hmn with h | h
      · subst h
        exact ⟨⟨le_refl _, le_refl _⟩, ⟨le_refl _, le_refl _⟩⟩
      · have ⟨⟨hU1, hU2⟩, ⟨hC1, hC2⟩⟩ := ih h
        have hu := narrowU_mono secret (gs n) (stateAtU secret gs (lo, hi) n)
        have hc := narrowC_mono alpha (stateAtC alpha rs (lo, hi) n) (rs n)
        exact ⟨⟨le_trans hU1 hu.1, le_trans hu.2 hU2⟩,
          ⟨le_trans hC1 hc.1, le_trans hc.2 hC2⟩⟩

/-- Witness for C6 at a concrete pair of steps. -/
theorem c6_narrowing_monotonic_witness :
    ((stateAtU 2 (fun _ => 1) (1, 3) 0).1 ≤ (stateAtU 2 (fun _ => 1) (1, 3) 1).1 ∧
      (stateAtU 2 (fun _ => 1) (1, 3) 1).2 ≤ (stateAtU 2 (fun _ => 1) (1, 3) 0).2) ∧
    ((stateAtC (1/2) (fun _ => Resp.up) (1, 3) 0).1 ≤
        (stateAtC (1/2) (fun _ => Resp.up) (1, 3) 1).1 ∧
      (stateAtC (1/2) (fun _ => Resp.up) (1, 3) 1).2 ≤
        (stateAtC (1/2) (fun _ => Resp.up) (1, 3) 0).2) :=
  c6_narrowing_monotonic 2 1 3 (fun _ => 1) (1/2) (fun _ => Resp.up) 0 1 (by omega)

/-- C7 counterexample: with `alpha = 0.5` on the range `[1, 100]`, the first
guess emitted by the system-guesses mode is not 51, because Python 3 rounds
`50.5` half-to-even, giving 50. -/
theorem c7_counterexample : computeGuess (1/2) 1 100 ≠ 51 := by
  norm_num [computeGuess, pyRound]

/-- C7 amended: with `alpha = 0.5` on the range `[1, 100]`, the first guess
emitted is 50 (`round(50.5)` rounds half to even in Python 3). -/
theorem c7_first_guess_is_fifty : computeGuess (1/2) 1 100 = 50 := by
  norm_num [computeGuess, pyRound]

/-- C10: for every `alpha` (also outside `[0, 1]`) and every non-empty range,
the clamped guess of the system-guesses mode lies within `[cur_lo, cur_hi]`. -/
theorem c10_guess_in_range (alpha : ℚ) (lo hi : ℤ) (h : lo ≤ hi) :
    lo ≤ computeGuess alpha lo hi ∧ computeGuess alpha lo hi ≤ hi :=
  ⟨le_max_left _ _, max_le h (min_le_left _ _)⟩

/-- Witness for C10 with `alpha = 5`, far outside `[0, 1]`. -/
theorem c10_guess_in_range_witness :
    1 ≤ computeGuess 5 1 10 ∧ computeGuess 5 1 10 ≤ 10 :=
  c10_guess_in_range 5 1 10 (by omega)

/-! ## UserProfile and the full human-guesses game step (game.py lines 67-75,
156-201, 250-263) -/

/-- State of `UserProfile`: position bias `alpha`, optional running
`avg_attempts`, adaptive `range_size`, `games_played`, and the two owned
learners. -/
structure UserProfile where
  username : String
  alpha : ℚ
  avg_attempts : Option ℚ
  range_size : ℤ
  games_played : ℤ
  hot_cold_learner : HotColdLearner
  hint_bandit : HintBandit

/-- The `UserProfile` constructor (lines 68-75). -/
def initProfile (username : String) : UserProfile :=
  { username := username
    alpha := 1/2
    avg_attempts := none
    range_size := 100
    games_played := 0
    hot_cold_learner := initHotCold
    hint_bandit := initBandit }

/-- `AdaptiveGame.update_user_stats` (lines 250-263): first-value or EMA
blend of `avg_attempts`, increment `games_played`, then grow or shrink
`range_size` based on the new average. -/
def update_user_stats (p : UserProfile) (attempts : ℤ) : UserProfile :=
  let avg : ℚ :=
    match p.avg_attempts with
    | none => (attempts : ℚ)
    | some a => 8/10 * a + 2/10 * (attempts : ℚ)
  let p1 := { p with avg_attempts := some avg, games_played := p.games_played + 1 }
  if avg < 4 then
    { p1 with range_size := min 10000 (pyInt ((p1.range_size : ℚ) * (12/10))) }
  else if 8 < avg then
    { p1 with range_size := max 10 (pyInt ((p1.range_size : ℚ) * (8/10))) }
  else p1

/-- Mutable state of one `play_user_guesses` round: the profile, the
current range, and the attempt counter. -/
structure GameState where
  profile : UserProfile
  cur_lo : ℤ
  cur_hi : ℤ
  attempts : ℤ

/-- One iteration of the `play_user_guesses` loop (lines 176-201) on a
numeric input: out-of-range guesses are rejected without charging an
attempt; otherwise the attempt counter and `alpha` update, and either the
win branch fires the three learner updates or the range narrows. The
boolean reports whether the loop broke with a win. -/
def guessStep (secret : ℤ) (hint_style : String) (st : GameState) (g : ℤ) :
    GameState × Bool :=
  if g < st.cur_lo ∨ st.cur_hi < g then (st, false)
  else
    let attempts := st.attempts + 1
    let p :=
      if st.cur_lo < st.cur_hi then
        { st.profile with alpha := 9/10 * st.profile.alpha +
            1/10 * (((g : ℚ) - (st.cur_lo : ℚ)) / ((st.cur_hi : ℚ) - (st.cur_lo : ℚ))) }
      else st.profile
    if g = secret then
      let p1 := { p with hot_cold_learner := record_game p.hot_cold_learner attempts }
      let p2 := { p1 with hint_bandit := update_stats p1.hint_bandit hint_style attempts }
      ({ st with profile := update_user_stats p2 attempts, attempts := attempts }, true)
    else if g < secret then
      ({ st with profile := p, attempts := attempts, cur_lo := max st.cur_lo (g + 1) }, false)
    else
      ({ st with profile := p, attempts := attempts, cur_hi := min st.cur_hi (g - 1) }, false)

/-- Run the `play_user_guesses` loop over a list of numeric inputs,
stopping at the first win. -/
def runGuesses (secret : ℤ) (hint_style : String) : GameState → List ℤ → GameState
  | st, [] => st
  | st, g :: rest =>
      let r := guessStep secret hint_style st g
      if r.2 then r.1 else runGuesses secret hint_style r.1 rest

/-- The C2 scenario: fresh profile, range `[1, 100]`, secret 50, guesses
75, 25, 50, hint style `hot_cold`. -/
def c2Run : GameState :=
  runGuesses 50 "hot_cold"
    { profile := initProfile "Player", cur_lo := 1, cur_hi := 100, attempts := 0 }
    [75, 25, 50]

/-- C2 counterexample: in the scenario, `k` does not strictly increase,
because `record_game` passes `predicted_guesses = target_guesses`, so the
success branch adds `learning_rate * (1 - 3/3) = 0`. -/
theorem c2_counterexample :
    ¬ (initProfile "Player").hot_cold_learner.k < c2Run.profile.hot_cold_learner.k := by
  norm_num [c2Run, runGuesses, guessStep, update_user_stats, update_stats, record_game,
    update_k, initProfile, initHotCold, initBandit, pyInt, min_def, max_def]

/-- C2 amended: the scenario records 3 attempts, sets `avg_attempts` to
exactly 3 (first game), and takes the success branch of the update rule,
which leaves `k` unchanged at its default 0.3 because the added term
`learning_rate * (1 - predicted/target)` is zero. -/
theorem c2_scenario : c2Run.attempts = 3 ∧
    c2Run.profile.avg_attempts = some 3 ∧
    c2Run.profile.hot_cold_learner.k = (initProfile "Player").hot_cold_learner.k := by
  refine ⟨?_, ?_, ?_⟩ <;>
    norm_num [c2Run, runGuesses, guessStep, update_user_stats, update_stats, record_game,
      update_k, initProfile, initHotCold, initBandit, pyInt, min_def, max_def]

/-! ## Input-stream termination behaviour (game.py lines 169-174, 211,
227-231, 300-304)

The interactive reads are modelled by token streams. A `num`/`junk` token
is a line that parses/fails to parse as an integer; an `eof` token is
end-of-input or a keyboard interrupt raised by `input()`. The models below
capture only which exception handlers surround each read. -/

/-- One result of `input()` at the guess prompt. -/
inductive Inp where
  | num (n : ℤ)
  | junk
  | eof
deriving Repr, DecidableEq

/-- How a game mode ends: a regular win, a caught interruption returning
to the menu, a range-contradiction abort, or an exception that no handler
catches and that kills the process. -/
inductive ModeExit where
  | finished
  | interrupted
  | contradicted
  | uncaught
deriving Repr, DecidableEq

/-- Exit behaviour of the `play_user_guesses` loop (lines 169-201): the
`except ValueError` around `input()` (lines 170-174) swallows `junk` and
re-prompts, but an `eof` raises `EOFError`/`KeyboardInterrupt`, which
nothing in this function or in `main`'s call site catches. `none` means the
input list ran out with the loop still blocked on a read. -/
def playUserExit (secret : ℤ) : ℤ × ℤ → List Inp → Option ModeExit
  | _, [] => none
  | _, Inp.eof :: _ => some ModeExit.uncaught
  | s, Inp.junk :: rest => playUserExit secret s rest
  | s, Inp.num g :: rest =>
      if g < s.1 ∨ s.2 < g then playUserExit secret s rest
      else if g = secret then some ModeExit.finished
      else playUserExit secret (narrowU secret g s) rest

/-- One result of `input()` at the higher/lower/correct prompt. -/
inductive RespTok where
  | up
  | down
  | correct
  | junk
  | eof
deriving Repr, DecidableEq

/-- Exit behaviour of the `play_computer_guesses` response loop
(lines 213-248): the `except (EOFError, KeyboardInterrupt)` around the
response prompt (lines 227-231) turns `eof` into a graceful early return;
`h`/`l` narrow the range and abort with a contradiction message when it
empties (lines 246-248). -/
def playCompLoop (alpha : ℚ) : ℤ × ℤ → List RespTok → Option ModeExit
  | _, [] => none
  | _, RespTok.eof :: _ => some ModeExit.interrupted
  | _, RespTok.correct :: _ => some ModeExit.finished
  | s, RespTok.junk :: rest => playCompLoop alpha s rest
  | s, RespTok.up :: rest =>
      let s1 : ℤ × ℤ := (max s.1 (computeGuess alpha s.1 s.2 + 1), s.2)
      if s1.2 < s1.1 then some ModeExit.contradicted else playCompLoop alpha s1 rest
  | s, RespTok.down :: rest =>
      let s1 : ℤ × ℤ := (s.1, min s.2 (computeGuess alpha s.1 s.2 - 1))
      if s1.2 < s1.1 then some ModeExit.contradicted else playCompLoop alpha s1 rest

/-- Exit behaviour of `play_computer_guesses` as a whole: the bare
`input("Press Enter when you're ready...")` on line 211 sits outside every
`try`, so an `eof` there (`ready = false`) propagates uncaught. -/
def playCompMode (alpha : ℚ) (s : ℤ × ℤ) (ready : Bool) (toks : List RespTok) :
    Option ModeExit :=
  if ready then playCompLoop alpha s toks else some ModeExit.uncaught

/-- C9 counterexample: end-of-input at the very first guess prompt of the
human-guesses mode is an uncaught exception, not a graceful return to the
menu, so not every interactive read point terminates the mode gracefully. -/
theorem c9_counterexample :
    playUserExit 50 (1, 100) [Inp.eof] = some ModeExit.uncaught ∧
      ModeExit.uncaught ≠ ModeExit.interrupted := by
  exact ⟨rfl, by decide⟩

/-- C9 amended: end-of-input at the h/l/c response prompt is caught and
ends the system-guesses mode gracefully, but end-of-input at the guess
prompt of the human-guesses mode or at the ready prompt of the
system-guesses mode raises an exception that no enclosing handler catches,
and is fatal to the process. -/
theorem c9_eof_behaviour :
    (∀ (alpha : ℚ) (s : ℤ × ℤ) (rest : List RespTok),
        playCompLoop alpha s (RespTok.eof :: rest) = some ModeExit.interrupted) ∧
    (∀ (secret : ℤ) (s : ℤ × ℤ) (rest : List Inp),
        playUserExit secret s (Inp.eof :: rest) = some ModeExit.uncaught) ∧
    (∀ (alpha : ℚ) (s : ℤ × ℤ) (toks : List RespTok),
        playCompMode alpha s false toks = some ModeExit.uncaught) :=
  ⟨fun _ _ _ => rfl, fun _ _ _ => rfl, fun _ _ _ => rfl⟩

/-! ## Profile persistence (game.py lines 77-124) -/

/-- The JSON record written by `UserProfile.save_to_file` (lines 79-92):
scalar fields plus one `(style, attempts, avg_attempts)` entry per hint
style. -/
structure SavedData where
  username : String
  alpha : ℚ
  avg_attempts : Option ℚ
  range_size : ℤ
  games_played : ℤ
  hot_cold_k : ℚ
  hint_style_stats : List (String × ℤ × ℚ)

/-- `UserProfile.save_to_file` (lines 77-96), with the file system
abstracted away: the produced record. -/
def save_to_file (p : UserProfile) : SavedData :=
  { username := p.username
    alpha := p.alpha
    avg_attempts := p.avg_attempts
    range_size := p.range_size
    games_played := p.games_played
    hot_cold_k := p.hot_cold_learner.k
    hint_style_stats := p.hint_bandit.hint_styles.map
      (fun style => (style, p.hint_bandit.attempts style, p.hint_bandit.avg_attempts style)) }

/-- The `hint_style_stats` loop of `load_from_file` (lines 114-118):
entries whose style is known overwrite both dictionaries; unknown styles
are silently ignored. -/
def loadStats (b : HintBandit) (entries : List (String × ℤ × ℚ)) : HintBandit :=
  entries.foldl
    (fun b e =>
      if e.1 ∈ b.hint_styles then
        { b with
          attempts := fun s => if s = e.1 then e.2.1 else b.attempts s
          avg_attempts := fun s => if s = e.1 then e.2.2 else b.avg_attempts s }
      else b)
    b

/-- `UserProfile.load_from_file` (lines 98-124) applied to a record that
contains every key, as `save_to_file` always writes: each field is
populated from the record into the session's fresh profile. -/
def load_from_file (p : UserProfile) (d : SavedData) : UserProfile :=
  { p with
    alpha := d.alpha
    avg_attempts := d.avg_attempts
    range_size := d.range_size
    games_played := d.games_played
    hot_cold_learner := { p.hot_cold_learner with k := d.hot_cold_k }
    hint_bandit := loadStats p.hint_bandit d.hint_style_stats }

/-- Saving a profile and loading the record into the fresh profile a new
session starts from (as `AdaptiveGame.__init__`, lines 127-129, does). -/
def roundTripped (p : UserProfile) : UserProfile :=
  load_from_file (initProfile p.username) (save_to_file p)

/-- Attempts and average agree between two bandits for one style. -/
def styleStatsEq (b1 b2 : HintBandit) (s : String) : Prop :=
  b1.attempts s = b2.attempts s ∧ b1.avg_attempts s = b2.avg_attempts s

/-- C8: saving and re-loading a profile under the same username reproduces
every persisted field exactly — `alpha`, `avg_attempts`, `range_size`,
`games_played`, the hot/cold `k`, and the per-style attempts and averages
for each of the three hint styles. -/
theorem c8_round_trip (p : UserProfile)
    (hs : p.hint_bandit.hint_styles = defaultStyles) :
    (roundTripped p).alpha = p.alpha ∧
    (roundTripped p).avg_attempts = p.avg_attempts ∧
    (roundTripped p).range_size = p.range_size ∧
    (roundTripped p).games_played = p.games_played ∧
    (roundTripped p).hot_cold_learner.k = p.hot_cold_learner.k ∧
    styleStatsEq (roundTripped p).hint_bandit p.hint_bandit "hot_cold" ∧
    styleStatsEq (roundTripped p).hint_bandit p.hint_bandit "higher_lower" ∧
    styleStatsEq (roundTripped p).hint_bandit p.hint_bandit "range" := by
  refine ⟨rfl, rfl, rfl, rfl, rfl, ?_, ?_, ?_⟩ <;>
    simp [roundTripped, load_from_file, save_to_file, loadStats, initProfile,
      initBandit, defaultStyles, styleStatsEq, hs]

/-- A concrete saved profile with non-default values in every field. -/
def sampleProfile : UserProfile :=
  { username := "Alice"
    alpha := 7/10
    avg_attempts := some (9/2)
    range_size := 250
    games_played := 4
    hot_cold_learner :=
      { k := 1/2, target_guesses := 3, learning_rate := 1/10, history := [(2, 3)] }
    hint_bandit :=
      { hint_styles := defaultStyles
        exploration_rate := 1/10
        attempts := fun s => if s = "range" then 3 else 1
        avg_attempts := fun s => if s = "range" then 4 else 6
        total_games := 5 } }

/-- Witness for C8 on the concrete `sampleProfile`. -/
theorem c8_round_trip_witness :
    (roundTripped sampleProfile).alpha = sampleProfile.alpha ∧
    (roundTripped sampleProfile).avg_attempts = sampleProfile.avg_attempts ∧
    (roundTripped sampleProfile).range_size = sampleProfile.range_size ∧
    (roundTripped sampleProfile).games_played = sampleProfile.games_played ∧
    (roundTripped sampleProfile).hot_cold_learner.k = sampleProfile.hot_cold_learner.k ∧
    styleStatsEq (roundTripped sampleProfile).hint_bandit sampleProfile.hint_bandit
      "hot_cold" ∧
    styleStatsEq (roundTripped sampleProfile).hint_bandit sampleProfile.hint_bandit
      "higher_lower" ∧
    styleStatsEq (roundTripped sampleProfile).hint_bandit sampleProfile.hint_bandit
      "range" :=
  c8_round_trip sampleProfile rfl

end NumberGuess
